import Mathlib

/-!
# The scanner pipeline of libebur128 (scan mode and tag mode)

A shallow embedding of `scanner/scanner-scan.c` and `scanner/scanner-tag.c`.

* `guint64` counters are natural numbers; every addition the C code performs on
  them is reduced modulo `2 ^ 64` (`wrap64`).
* `double` values (loudness, gains, peaks) are exact rationals.
* The decoder plugin and the loudness accumulator are external to the two files.
  What they answer during one visit of one file is recorded in `input_calls`;
  a `world` gives these answers for every raw path.
* `abort()` is the result `none`.
* A critical section (the code between `g_mutex_lock` and `g_mutex_unlock`) is
  one function on the file's `file_data`.
-/

namespace scanner

/-- Reduction of a sum to the range of `guint64`. -/
def wrap64 (n : Nat) : Nat := n % 2 ^ 64

/-- The two spellings of a file name kept by the file tree (`fln->fr`). -/
structure filename_representations where
  raw : String
  display : String
deriving DecidableEq, Repr

/-- Measurement modes of the accumulator; the scanner only uses this one. -/
inductive ebur128_mode where
  | EBUR128_MODE_I
deriving DecidableEq, Repr

/-- Modelled from the spec: the loudness accumulator (`ebur128_state`) is declared
outside the two scanner files. It is an opaque state created from a channel count,
a sample rate and a mode, and fed blocks of frames; the model records the
parameters and the sizes of the blocks fed so far, oldest first. -/
structure ebur128_state where
  channels : Nat
  samplerate : Nat
  mode : ebur128_mode
  blocks : List Nat
deriving DecidableEq, Repr

/-- Modelled from the spec: `init(channels, sample_rate, mode) -> accumulator`. -/
def ebur128_init (channels samplerate : Nat) (mode : ebur128_mode) : ebur128_state :=
  { channels := channels, samplerate := samplerate, mode := mode, blocks := [] }

/-- Modelled from the spec: `add_frames(accumulator, buffer, frame_count)`, the
effect on the accumulator when the call succeeds. -/
def ebur128_add_frames_float (st : ebur128_state) (frames : Nat) : ebur128_state :=
  { st with blocks := st.blocks ++ [frames] }

/-- The fields of `struct file_data` that `scanner-scan.c` reads and writes.
`st = none` is the NULL handle; the mutex is not a field of the model. -/
structure file_data where
  st : Option ebur128_state
  number_of_frames : Nat
  number_of_elapsed_frames : Nat
  loudness : ℚ
deriving DecidableEq, Repr

/-- The zero-initialised `static struct file_data empty`. -/
def empty : file_data :=
  { st := none, number_of_frames := 0, number_of_elapsed_frames := 0, loudness := 0 }

/-- One node of the file list: the file's names and its scan state `fln->d`. -/
structure filename_list_node where
  fr : filename_representations
  d : file_data
deriving DecidableEq, Repr

/-- The answers of the external calls made during one visit of one file:
`input_get_ops`, `g_fopen`, the decoder operations, and the accumulator. -/
structure input_calls where
  /-- Whether `input_get_ops(raw)` returned a plugin. -/
  ops_found : Bool
  /-- Whether `g_fopen(raw, "rb")` returned a stream. -/
  fopen_ok : Bool
  /-- Return value of `ops->open_file`. -/
  open_file : Int
  /-- Return value of `ops->get_total_frames`. -/
  total_frames : Nat
  channels : Nat
  samplerate : Nat
  /-- Return value of `ops->allocate_buffer`. -/
  allocate_buffer : Int
  /-- Per round of the read loop: the value of `ops->read_frames` and the return
  value of `ebur128_add_frames_float` on that block. When the list is used up the
  decoder returns 0. -/
  reads : List (Nat × Int)
  /-- The value `ebur128_loudness_global` stores. -/
  loudness : ℚ

/-- The external answers for every raw path. -/
abbrev world := String → input_calls

/-- The out-parameters of `open_plugin`: which of `*ops`, `*ih`, `*file` are set. -/
structure plugin_handles where
  ops : Bool
  ih : Bool
  file : Bool
deriving DecidableEq, Repr

/-- The function `open_plugin`: 0 on success, 1 on each of the three failures. -/
def open_plugin (c : input_calls) : Nat × plugin_handles :=
  if !c.ops_found then
    (1, { ops := false, ih := false, file := false })
  else if !c.fopen_ok then
    (1, { ops := true, ih := true, file := false })
  else if c.open_file ≠ 0 then
    (1, { ops := true, ih := true, file := true })
  else
    (0, { ops := true, ih := true, file := true })

/-- The prober `init_and_get_number_of_frames`. The node's state is replaced by a
copy of `empty`; on a successful open the declared total is recorded. -/
def init_and_get_number_of_frames (w : world) (fln : filename_list_node) :
    filename_list_node :=
  let fd := empty
  if (open_plugin (w fln.fr.raw)).1 ≠ 0 then
    { fln with d := fd }
  else
    { fln with d := { fd with number_of_frames := (w fln.fr.raw).total_frames } }

/-- The critical section of the read loop:
`fd->number_of_elapsed_frames += nr_frames_read`. -/
def add_elapsed (nr_frames_read : Nat) (fd : file_data) : file_data :=
  { fd with number_of_elapsed_frames := wrap64 (fd.number_of_elapsed_frames + nr_frames_read) }

/-- The critical section after the read loop: when the two counters differ,
`fd->number_of_frames = fd->number_of_elapsed_frames`. -/
def correct_length (fd : file_data) : file_data :=
  if fd.number_of_elapsed_frames ≠ fd.number_of_frames then
    { fd with number_of_frames := fd.number_of_elapsed_frames }
  else fd

/-- The loop `while ((nr_frames_read = ops->read_frames(ih)))` of the scan job. -/
def read_loop : List (Nat × Int) → file_data → Option file_data
  | [], fd => some fd
  | (nr_frames_read, result) :: rest, fd =>
    if nr_frames_read = 0 then some fd
    else
      let fd := add_elapsed nr_frames_read fd
      if result ≠ 0 then none
      else
        read_loop rest
          { fd with st := fd.st.map (fun st => ebur128_add_frames_float st nr_frames_read) }

/-- The body of `init_state_and_scan_work_item` on the file's state. -/
def scan_file_data (c : input_calls) (fd : file_data) : Option file_data :=
  if (open_plugin c).1 ≠ 0 then some fd
  else
    let fd := { fd with st := some (ebur128_init c.channels c.samplerate .EBUR128_MODE_I) }
    if c.allocate_buffer ≠ 0 then none
    else
      match read_loop c.reads fd with
      | none => none
      | some fd =>
        let fd := correct_length fd
        some { fd with loudness := c.loudness }

/-- The scan job `init_state_and_scan_work_item` of one file. -/
def init_state_and_scan_work_item (w : world) (fln : filename_list_node) :
    Option filename_list_node :=
  (scan_file_data (w fln.fr.raw) fln.d).map (fun fd => { fln with d := fd })

/-- The call `g_slist_foreach(list, func, user_data)` for a callback that updates
`user_data`. -/
def g_slist_foreach {α β : Type} (list : List α) (func : α → β → β) (user_data : β) : β :=
  list.foldl (fun acc x => func x acc) user_data

/-- The callback `sum_frames`: adds one file's counters to the pair `fc`. -/
def sum_frames (fln : filename_list_node) (fc : Nat × Nat) : Nat × Nat :=
  (wrap64 (fc.1 + fln.d.number_of_elapsed_frames), wrap64 (fc.2 + fln.d.number_of_frames))

/-- The measurement of one round of `print_progress_bar`:
`fc[0] = fc[1] = 0; g_slist_foreach(files, sum_frames, &fc)`. -/
def measure (files : List filename_list_node) : Nat × Nat :=
  g_slist_foreach files sum_frames (0, 0)

/-- A call `g_slist_foreach(files, func, NULL)` whose callback rewrites the state
of the node it is given, as the prober does. -/
def g_slist_foreach_node (files : List filename_list_node)
    (func : filename_list_node → filename_list_node) : List filename_list_node :=
  files.map func

/-- One printed line of scan mode: display name, `number_of_frames`, `loudness`
(the arguments of `print_utf8_string` and of the format `", %llu, %f\n"`). -/
structure row where
  name : String
  number_of_frames : Nat
  loudness : ℚ
deriving DecidableEq, Repr

/-- The line that `print_file_data` prints for a file in scan mode. -/
def scan_row (fln : filename_list_node) : row :=
  { name := fln.fr.display
    number_of_frames := fln.d.number_of_frames
    loudness := fln.d.loudness }

/-- The callback `print_file_data` of scan mode: the row it appends to the output. -/
def print_file_data (fln : filename_list_node) (out : List row) : List row :=
  out ++ [scan_row fln]

/-- The worker pool runs the job of the node at position `i`; `none` once a job
has called `abort()`. -/
def run_job (w : world) (files : Option (List filename_list_node)) (i : Nat) :
    Option (List filename_list_node) :=
  files.bind fun fs =>
    match fs[i]? with
    | none => some fs
    | some fln => (init_state_and_scan_work_item w fln).map (fun fln' => fs.set i fln')

/-- The pool drains its queue: the jobs run to their return in the order `order`
(positions in the file list). -/
def run_jobs (w : world) (files : List filename_list_node) (order : List Nat) :
    Option (List filename_list_node) :=
  order.foldl (run_job w) (some files)

/-- The file states after the prober pass and the drained pool of `loudness_scan`;
`probe` and `scan` are the external answers at the first and the second visit of
each file. -/
def scan_all (probe scan : world) (order : List Nat) (files : List filename_list_node) :
    Option (List filename_list_node) :=
  run_jobs scan (g_slist_foreach_node files (init_and_get_number_of_frames probe)) order

/-- The steps by which the jobs change the counters that the reporter reads: the
critical section of one round of the read loop of file `i`, and the critical
section after the loop of file `i`. -/
inductive scan_step where
  | read (i : Nat) (nr_frames_read : Nat)
  | finish (i : Nat)
deriving DecidableEq, Repr

/-- Rewrites the state of the node at position `i`. -/
def update_node (files : List filename_list_node) (i : Nat) (f : file_data → file_data) :
    List filename_list_node :=
  match files[i]? with
  | none => files
  | some fln => files.set i { fln with d := f fln.d }

/-- The batch after one step of a job. -/
def apply_step (files : List filename_list_node) : scan_step → List filename_list_node
  | .read i nr_frames_read => update_node files i (add_elapsed nr_frames_read)
  | .finish i => update_node files i correct_length

/-- The addition of a read step stays below `2 ^ 64`. -/
def step_fits (files : List filename_list_node) : scan_step → Prop
  | .read i nr_frames_read =>
    ∀ fln, files[i]? = some fln → fln.d.number_of_elapsed_frames + nr_frames_read < 2 ^ 64
  | .finish _ => True

/-- A correction step does not raise the total of its file. -/
def corrects_downward (files : List filename_list_node) : scan_step → Prop
  | .read _ _ => True
  | .finish i =>
    ∀ fln, files[i]? = some fln → fln.d.number_of_elapsed_frames ≤ fln.d.number_of_frames

/-- The completion fraction of a measurement. -/
def progress_fraction (fc : Nat × Nat) : ℚ := (fc.1 : ℚ) / (fc.2 : ℚ)

/-- The terminating byte of a C string. -/
def NUL : Char := Char.ofNat 0

/-- Conversion of a `guint64` value to `int` (32 bits, two's complement). -/
def to_int (v : Nat) : Int :=
  if v % 2 ^ 32 < 2 ^ 31 then ((v % 2 ^ 32 : Nat) : Int) else ((v % 2 ^ 32 : Nat) : Int) - 2 ^ 32

/-- The store `progress_bar[i] = c`; `none` when `i` is outside the array. -/
def poke (progress_bar : List Char) (i : Nat) (c : Char) : Option (List Char) :=
  if i < progress_bar.length then some (progress_bar.set i c) else none

/-- The stores `progress_bar[i] = c` for `i = start, ..., start + count - 1`, in
this order. -/
def poke_range (progress_bar : List Char) (start count : Nat) (c : Char) :
    Option (List Char) :=
  (List.range' start count).foldlM (fun b i => poke b i c) progress_bar

/-- The conversion `%3d`: decimal digits, padded with blanks on the left to width 3. -/
def fmt_3d (n : Int) : List Char :=
  let digits := (toString n).toList
  List.replicate (3 - digits.length) ' ' ++ digits

/-- The stores of `text[0], text[1], ...` at `progress_bar[pos], progress_bar[pos + 1], ...`. -/
def poke_text (progress_bar : List Char) (pos : Nat) : List Char → Option (List Char)
  | [] => some progress_bar
  | c :: rest => (poke progress_bar pos c).bind (fun b => poke_text b (pos + 1) rest)

/-- The call `sprintf(&progress_bar[pos], "] %3d%%", percent)`, terminating NUL
included. -/
def sprintf_percent (progress_bar : List Char) (pos : Nat) (percent : Int) :
    Option (List Char) :=
  poke_text progress_bar pos ([']', ' '] ++ fmt_3d percent ++ ['%', NUL])

/-- The rendering part of one round of `print_progress_bar`, from
`bars = fc[0] * 73 / fc[1]` to the `sprintf`: the new contents of the static
array `progress_bar`, or `none` when the divisor is 0 or a store falls outside
the array. -/
def render_progress (fc : Nat × Nat) (progress_bar : List Char) : Option (List Char) :=
  if fc.2 = 0 then none
  else
    let bars := to_int (wrap64 (fc.1 * 73) / fc.2)
    let percent := to_int (wrap64 (fc.1 * 100) / fc.2)
    (poke progress_bar 0 '[').bind fun b =>
    (poke_range b 1 bars.toNat '#').bind fun b =>
    let i := 1 + bars.toNat
    (poke_range b i (74 - i) ' ').bind fun b =>
    if 0 ≤ percent ∧ percent ≤ 100 then sprintf_percent b 74 percent else some b

/-- The characters that `fprintf(stderr, "%s\r", progress_bar)` takes from the
array: those before the first NUL. -/
def c_string (progress_bar : List Char) : List Char :=
  progress_bar.takeWhile (fun c => c ≠ NUL)

/-- How the reporter thread stands after a given number of polls. -/
inductive reporter where
  /-- The loop was left with `fc` after `measurements` measurements, having
  printed `lines`. -/
  | exited (fc : Nat × Nat) (measurements : Nat) (lines : List (List Char))
  /-- The loop is still running. -/
  | polling
  /-- A store fell outside `progress_bar`. -/
  | fault
deriving DecidableEq, Repr

/-- The loop `while (fc[0] != fc[1])` of `print_progress_bar`. Each element of
the first argument is the batch as one round of the loop reads it. -/
def progress_loop : List (List filename_list_node) → Nat × Nat → Nat → List Char →
    List (List Char) → reporter
  | [], fc, n, _, lines => if fc.1 = fc.2 then .exited fc n lines else .polling
  | files :: rest, fc, n, progress_bar, lines =>
    if fc.1 = fc.2 then .exited fc n lines
    else
      let fc := measure files
      if fc.2 = 0 then .exited fc (n + 1) lines
      else
        match render_progress fc progress_bar with
        | none => .fault
        | some progress_bar =>
          progress_loop rest fc (n + 1) progress_bar (lines ++ [c_string progress_bar])

/-- The thread function `print_progress_bar`: the loop started from
`fc[] = {0, 1}` and the zero-initialised static array of 81 bytes. -/
def print_progress_bar (polls : List (List filename_list_node)) : reporter :=
  progress_loop polls (0, 1) 0 (List.replicate 81 NUL) []

/-- The function `loudness_scan`: prober pass, jobs pushed to the pool, reporter
thread started, `g_thread_pool_free` (the pool drains, the jobs running in the
order `order`), `g_thread_join(progress_bar_thread)`, then
`g_slist_foreach(files, print_file_data, NULL)`. `polls` are the batches as the
reporter reads them while the pool drains; from then on it reads the final
batch. The join returns when the reporter has left its loop during `polls` or
leaves it on the final batch; a reporter still polling after one round on the
final batch polls it for ever. The result is the list of rows printed, `none`
when no row is printed: a job has aborted, the reporter never leaves its loop,
or one of its stores falls outside `progress_bar`. -/
def loudness_scan (probe scan : world) (order : List Nat)
    (polls : List (List filename_list_node)) (files : List filename_list_node) :
    Option (List row) :=
  match scan_all probe scan order files with
  | none => none
  | some final =>
    match print_progress_bar (polls ++ [final]) with
    | .exited _ _ _ => some (g_slist_foreach final print_file_data [])
    | .polling => none
    | .fault => none

/-- A decoder that opens every file, declares 100 frames and delivers blocks of
10 and 20 frames. -/
def short_decoder : world := fun _ =>
  { ops_found := true, fopen_ok := true, open_file := 0, total_frames := 100,
    channels := 2, samplerate := 44100, allocate_buffer := 0,
    reads := [(10, 0), (20, 0)], loudness := -23 }

/-- A visit at which `g_fopen` fails for every file. -/
def unreadable : world := fun _ =>
  { ops_found := true, fopen_ok := false, open_file := 0, total_frames := 0,
    channels := 0, samplerate := 0, allocate_buffer := 0, reads := [], loudness := 0 }

/-- A list node for the file `name` with the given counters. -/
def node (name : String) (number_of_frames number_of_elapsed_frames : Nat) :
    filename_list_node :=
  { fr := { raw := name, display := name }
    d := { st := none, number_of_frames := number_of_frames,
           number_of_elapsed_frames := number_of_elapsed_frames, loudness := 0 } }

/-- The progress line as the interface describes it, `"[### ...] NNN%"`: an
opening bracket, `bars` hash signs, blanks up to column 73, `"] "`, the
percentage in width 3 and a percent sign. -/
def progress_line (bars percent : Nat) : List Char :=
  '[' :: (List.replicate bars '#' ++ List.replicate (73 - bars) ' ' ++
    ([']', ' '] ++ fmt_3d (percent : Int) ++ ['%']))

/-- The sum of `number_of_elapsed_frames` over the batch, without reduction. -/
def sum_elapsed (files : List filename_list_node) : Nat :=
  (files.map (fun fln => fln.d.number_of_elapsed_frames)).sum

/-- The sum of `number_of_frames` over the batch, without reduction. -/
def sum_total (files : List filename_list_node) : Nat :=
  (files.map (fun fln => fln.d.number_of_frames)).sum

/-- A batch visit at which the file `b` cannot be opened and every other file
decodes as with `short_decoder`. -/
def one_unreadable : world := fun raw =>
  if raw = "b" then unreadable raw else short_decoder raw

end scanner

namespace scanner_tag

/-- The macro `REFERENCE_LEVEL`. -/
def REFERENCE_LEVEL : ℚ := -18

/-- The function `clamp_rg`. -/
def clamp_rg (x : ℚ) : ℚ :=
  if x < -51 then -51
  else if x > 51 then 51
  else x

/-- The fields of `struct file_data` that `scanner-tag.c` reads. -/
structure file_data where
  scanned : Bool
  loudness : ℚ
  gain_album : ℚ
  peak_album : ℚ
  peak : ℚ
deriving DecidableEq, Repr

/-- One node of the file list in tag mode. -/
structure filename_list_node where
  fr : scanner.filename_representations
  d : file_data
deriving DecidableEq, Repr

/-- One printed line of tag mode: the four numbers of the format
`"%7.2f dB, %7.2f dB, %10.6f, %10.6f"` and the display name when it is printed. -/
structure row where
  gain_album : ℚ
  track_gain : ℚ
  peak_album : ℚ
  peak : ℚ
  name : Option String
deriving DecidableEq, Repr

/-- The local `track_gain` of `print_file_data`. -/
def track_gain (fd : file_data) : ℚ := clamp_rg (REFERENCE_LEVEL - fd.loudness)

/-- The line that `print_file_data` prints for a scanned file; the name is left
out when `fln->fr->display[0]` is NUL. -/
def tag_row (fln : filename_list_node) : row :=
  { gain_album := fln.d.gain_album
    track_gain := track_gain fln.d
    peak_album := fln.d.peak_album
    peak := fln.d.peak
    name := if fln.fr.display.isEmpty then none else some fln.fr.display }

/-- The callback `print_file_data` of tag mode: the rows it appends to the output. -/
def print_file_data (fln : filename_list_node) (out : List row) : List row :=
  if fln.d.scanned then out ++ [tag_row fln] else out

/-- The call `g_slist_foreach(files, print_file_data, NULL)` of `loudness_tag`. -/
def print_all (files : List filename_list_node) : List row :=
  scanner.g_slist_foreach files print_file_data []

end scanner_tag

/-! ## Theorems -/

namespace scanner

/-! ### The scan job -/

theorem wrap64_of_lt {n : Nat} (h : n < 2 ^ 64) : wrap64 n = n :=
  Nat.mod_eq_of_lt h

theorem wrap64_add_left (a b : Nat) : wrap64 (wrap64 a + b) = wrap64 (a + b) := by
  unfold wrap64
  exact Nat.mod_add_mod a (2 ^ 64) b

/-- The read loop on blocks that are all non-empty and all accepted by the
accumulator: it returns, the total is untouched and, when the additions stay
below `2 ^ 64`, the elapsed count has grown by the sum of the blocks. -/
theorem read_loop_all_blocks (reads : List (Nat × Int))
    (hreads : ∀ r ∈ reads, r.1 ≠ 0 ∧ r.2 = 0) (fd : file_data)
    (hfit : fd.number_of_elapsed_frames + (reads.map Prod.fst).sum < 2 ^ 64) :
    ∃ fd', read_loop reads fd = some fd' ∧
      fd'.number_of_frames = fd.number_of_frames ∧
      fd'.loudness = fd.loudness ∧
      fd'.number_of_elapsed_frames =
        fd.number_of_elapsed_frames + (reads.map Prod.fst).sum := by
  induction reads generalizing fd with
  | nil => exact ⟨fd, rfl, rfl, rfl, by simp⟩
  | cons r rest ih =>
    obtain ⟨nr, res⟩ := r
    obtain ⟨hnr, hres⟩ := hreads (nr, res) (List.mem_cons_self _ _)
    simp only at hnr hres
    subst hres
    have hrest : ∀ r ∈ rest, r.1 ≠ 0 ∧ r.2 = 0 := fun r hr =>
      hreads r (List.mem_cons_of_mem _ hr)
    simp only [List.map_cons, List.sum_cons] at hfit
    have hstep : (add_elapsed nr fd).number_of_elapsed_frames =
        fd.number_of_elapsed_frames + nr := by
      simp only [add_elapsed]
      exact wrap64_of_lt (by omega)
    obtain ⟨fd', h1, h2, h3, h4⟩ := ih hrest
      { add_elapsed nr fd with
        st := (add_elapsed nr fd).st.map (fun st => ebur128_add_frames_float st nr) }
      (by simp only [hstep]; omega)
    refine ⟨fd', ?_, ?_, ?_, ?_⟩
    · simp only [read_loop, if_neg hnr, ne_eq, not_true_eq_false, if_false]
      exact h1
    · rw [h2]; rfl
    · rw [h3]; rfl
    · rw [h4]
      simp only [hstep, List.map_cons, List.sum_cons]
      omega

theorem open_plugin_fails_iff (c : input_calls) :
    (open_plugin c).1 ≠ 0 ↔ (c.ops_found = false ∨ c.fopen_ok = false ∨ c.open_file ≠ 0) := by
  unfold open_plugin
  cases c.ops_found <;> cases c.fopen_ok <;> by_cases h : c.open_file = 0 <;> simp [h]

/-- C2: when the scan job opens the decoder, gets its buffer and reads blocks
that are all non-empty and all accepted by the accumulator, it returns, and on
return `number_of_elapsed_frames` equals `number_of_frames`, both being the
elapsed count before the job plus the sum of the blocks, whatever total the
prober had recorded (additions below `2 ^ 64`). -/
theorem scanned_counters_agree (w : world) (fln : filename_list_node)
    (hopen : (open_plugin (w fln.fr.raw)).1 = 0)
    (halloc : (w fln.fr.raw).allocate_buffer = 0)
    (hreads : ∀ r ∈ (w fln.fr.raw).reads, r.1 ≠ 0 ∧ r.2 = 0)
    (hfit : fln.d.number_of_elapsed_frames +
      ((w fln.fr.raw).reads.map Prod.fst).sum < 2 ^ 64) :
    ∃ fln', init_state_and_scan_work_item w fln = some fln' ∧
      fln'.d.number_of_elapsed_frames = fln'.d.number_of_frames ∧
      fln'.d.number_of_elapsed_frames =
        fln.d.number_of_elapsed_frames + ((w fln.fr.raw).reads.map Prod.fst).sum ∧
      fln'.d.number_of_frames =
        fln.d.number_of_elapsed_frames + ((w fln.fr.raw).reads.map Prod.fst).sum := by
  obtain ⟨fd', h1, -, -, h4⟩ := read_loop_all_blocks (w fln.fr.raw).reads hreads
    { fln.d with st := some (ebur128_init (w fln.fr.raw).channels
        (w fln.fr.raw).samplerate .EBUR128_MODE_I) } hfit
  have hjob : init_state_and_scan_work_item w fln =
      some { fln with d := { correct_length fd' with loudness := (w fln.fr.raw).loudness } } := by
    simp only [init_state_and_scan_work_item, scan_file_data, hopen, halloc, ne_eq,
      not_true_eq_false, if_false, h1, Option.map_some']
  have hc : (correct_length fd').number_of_elapsed_frames = fd'.number_of_elapsed_frames ∧
      (correct_length fd').number_of_frames = fd'.number_of_elapsed_frames := by
    unfold correct_length
    by_cases h : fd'.number_of_elapsed_frames = fd'.number_of_frames
    · simp [h]
    · simp [h]
  refine ⟨_, hjob, ?_, ?_, ?_⟩
  · show (correct_length fd').number_of_elapsed_frames = (correct_length fd').number_of_frames
    rw [hc.1, hc.2]
  · show (correct_length fd').number_of_elapsed_frames = _
    rw [hc.1, h4]
  · show (correct_length fd').number_of_frames = _
    rw [hc.2, h4]

/-- An instance of `scanned_counters_agree`: the prober recorded 100 frames and
the decoder delivers 10 + 20. -/
theorem scanned_counters_agree_witness :
    (open_plugin (short_decoder "a")).1 = 0 ∧
    (∀ r ∈ (short_decoder "a").reads, r.1 ≠ 0 ∧ r.2 = 0) ∧
    ∃ fln', init_state_and_scan_work_item short_decoder (node "a" 100 0) = some fln' ∧
      fln'.d.number_of_elapsed_frames = fln'.d.number_of_frames ∧
      fln'.d.number_of_elapsed_frames = 0 + 30 ∧
      fln'.d.number_of_frames = 0 + 30 :=
  ⟨by decide, by decide,
    scanned_counters_agree short_decoder (node "a" 100 0) (by decide) (by decide)
      (by decide) (by decide)⟩

/-- C8: `open_plugin` fails exactly when no plugin is found, `g_fopen` fails or
`open_file` fails. On such a failure the prober leaves the node with the zeroed
state (`number_of_frames`, `number_of_elapsed_frames` and `loudness` all 0), and
the scan job returns, without aborting, the node it was given: counters,
loudness and accumulator handle unchanged. When `open_plugin` succeeds in the
prober, `number_of_frames` is the declared total. -/
theorem setup_error_absorbed (w : world) (fln : filename_list_node) :
    ((open_plugin (w fln.fr.raw)).1 ≠ 0 ↔
      ((w fln.fr.raw).ops_found = false ∨ (w fln.fr.raw).fopen_ok = false ∨
        (w fln.fr.raw).open_file ≠ 0)) ∧
    ((open_plugin (w fln.fr.raw)).1 ≠ 0 →
      (init_and_get_number_of_frames w fln).fr = fln.fr ∧
      (init_and_get_number_of_frames w fln).d = empty ∧
      (init_and_get_number_of_frames w fln).d.number_of_frames = 0 ∧
      (init_and_get_number_of_frames w fln).d.number_of_elapsed_frames = 0 ∧
      (init_and_get_number_of_frames w fln).d.loudness = 0 ∧
      init_state_and_scan_work_item w fln = some fln) ∧
    ((open_plugin (w fln.fr.raw)).1 = 0 →
      (init_and_get_number_of_frames w fln).d.number_of_frames =
        (w fln.fr.raw).total_frames) := by
  refine ⟨open_plugin_fails_iff _, ?_, ?_⟩
  · intro h
    have hp : init_and_get_number_of_frames w fln = { fln with d := empty } := by
      simp only [init_and_get_number_of_frames, h, ne_eq, not_false_eq_true, if_true]
    have hj : init_state_and_scan_work_item w fln = some fln := by
      simp only [init_state_and_scan_work_item, scan_file_data, h, ne_eq, not_false_eq_true,
        if_true, Option.map_some']
    rw [hp]
    exact ⟨rfl, rfl, rfl, rfl, rfl, hj⟩
  · intro h
    simp only [init_and_get_number_of_frames, h, ne_eq, not_true_eq_false, if_false]

/-! ### The progress line -/

theorem take_succ_set (l : List Char) (pos : Nat) (c : Char) (h : pos < l.length) :
    (l.set pos c).take (pos + 1) = l.take pos ++ [c] := by
  rw [List.set_eq_take_append_cons_drop, if_pos h]
  have hlen : (List.take pos l).length = pos := by
    rw [List.length_take]; omega
  rw [List.take_append_eq_append_take, hlen, List.take_of_length_le (by omega)]
  simp

/-- A text that fits into the array is stored in place: the bytes before and
after it are kept. -/
theorem poke_text_fits (text : List Char) (progress_bar : List Char) (pos : Nat)
    (h : pos + text.length ≤ progress_bar.length) :
    poke_text progress_bar pos text =
      some (progress_bar.take pos ++ text ++ progress_bar.drop (pos + text.length)) := by
  induction text generalizing progress_bar pos with
  | nil => simp [poke_text]
  | cons c rest ih =>
    simp only [List.length_cons] at h
    have hpos : pos < progress_bar.length := by omega
    have hrest : pos + 1 + rest.length ≤ (progress_bar.set pos c).length := by
      rw [List.length_set]; omega
    simp only [poke_text, poke, if_pos hpos, Option.some_bind]
    rw [ih (progress_bar.set pos c) (pos + 1) hrest, take_succ_set _ _ _ hpos,
      List.drop_set_of_lt _ _ (by omega)]
    simp only [List.length_cons, List.append_assoc, List.singleton_append]
    congr 4
    omega

theorem poke_range_eq_poke_text (progress_bar : List Char) (start count : Nat) (c : Char) :
    poke_range progress_bar start count c =
      poke_text progress_bar start (List.replicate count c) := by
  induction count generalizing progress_bar start with
  | zero => rfl
  | succ n ih =>
    simp only [poke_range, List.range'_succ, List.foldlM_cons, List.replicate_succ, poke_text]
    cases hp : poke progress_bar start c with
    | none => rfl
    | some b => exact ih b (start + 1)

theorem poke_text_after (pre rest text : List Char) (pos : Nat) (hpos : pos = pre.length)
    (h : text.length ≤ rest.length) :
    poke_text (pre ++ rest) pos text = some (pre ++ text ++ rest.drop text.length) := by
  subst hpos
  rw [poke_text_fits _ _ _ (by rw [List.length_append]; omega), List.take_left',
    List.drop_append]
  rfl

theorem to_int_of_lt {v : Nat} (h : v < 2 ^ 31) : to_int v = (v : Int) := by
  have h32 : v % 2 ^ 32 = v := Nat.mod_eq_of_lt (by omega)
  unfold to_int
  rw [h32, if_pos h]

theorem fmt_3d_width (percent : Nat) (h : percent ≤ 100) :
    (fmt_3d (percent : Int)).length = 3 ∧ NUL ∉ fmt_3d (percent : Int) := by
  interval_cases percent <;> decide

/-- The rendering of a measurement with `0 < fc[1]`, `fc[0] <= fc[1]` and
`fc[0] * 100` below `2 ^ 64` overwrites the whole array with the progress line
and its terminating NUL. -/
theorem render_progress_eq (fc : Nat × Nat) (progress_bar : List Char)
    (hlen : progress_bar.length = 81) (hpos : 0 < fc.2) (hle : fc.1 ≤ fc.2)
    (hfit : fc.1 * 100 < 2 ^ 64) :
    render_progress fc progress_bar =
      some (progress_line (fc.1 * 73 / fc.2) (fc.1 * 100 / fc.2) ++ [NUL]) := by
  have hbars : fc.1 * 73 / fc.2 ≤ 73 :=
    Nat.div_le_of_le_mul (Nat.mul_le_mul_right 73 hle)
  have hpercent : fc.1 * 100 / fc.2 ≤ 100 :=
    Nat.div_le_of_le_mul (Nat.mul_le_mul_right 100 hle)
  have hw73 : wrap64 (fc.1 * 73) = fc.1 * 73 := wrap64_of_lt (by omega)
  have hw100 : wrap64 (fc.1 * 100) = fc.1 * 100 := wrap64_of_lt hfit
  obtain ⟨hwidth, -⟩ := fmt_3d_width _ hpercent
  generalize hb : fc.1 * 73 / fc.2 = bars at hbars
  generalize hp : fc.1 * 100 / fc.2 = percent at hpercent hwidth
  have h1 : poke progress_bar 0 '[' = some (['['] ++ progress_bar.drop 1) := by
    have := poke_text_after [] progress_bar ['['] 0 rfl (by simp [hlen])
    simpa [poke_text, Option.bind_eq_some] using this
  have h2 : poke_range (['['] ++ progress_bar.drop 1) 1 bars '#' =
      some ((['['] ++ List.replicate bars '#') ++ progress_bar.drop (1 + bars)) := by
    rw [poke_range_eq_poke_text, poke_text_after ['['] _ _ 1 rfl
      (by simp only [List.length_replicate, List.length_drop]; omega)]
    simp [Nat.add_comm]
  have h3 : poke_range ((['['] ++ List.replicate bars '#') ++ progress_bar.drop (1 + bars))
      (1 + bars) (74 - (1 + bars)) ' ' =
      some ((['['] ++ List.replicate bars '#' ++ List.replicate (73 - bars) ' ') ++
        progress_bar.drop 74) := by
    rw [poke_range_eq_poke_text, poke_text_after (['['] ++ List.replicate bars '#') _ _
      (1 + bars)
      (by simp only [List.length_append, List.length_replicate, List.length_singleton])
      (by simp only [List.length_replicate, List.length_drop]; omega)]
    have e1 : 74 - (1 + bars) = 73 - bars := by omega
    have e2 : 1 + bars + (73 - bars) = 74 := by omega
    simp [e1, e2]
  have h4 : sprintf_percent ((['['] ++ List.replicate bars '#' ++
      List.replicate (73 - bars) ' ') ++ progress_bar.drop 74) 74 (percent : Int) =
      some (progress_line bars percent ++ [NUL]) := by
    unfold sprintf_percent
    rw [poke_text_after (['['] ++ List.replicate bars '#' ++ List.replicate (73 - bars) ' ')
      _ _ 74
      (by simp only [List.length_append, List.length_replicate, List.length_singleton]; omega)
      (by simp only [List.length_append, List.length_cons, List.length_nil, hwidth,
            List.length_drop]; omega)]
    have hnil : List.drop (([']', ' '] ++ fmt_3d (percent : Int) ++ ['%', NUL]).length)
        (List.drop 74 progress_bar) = [] := by
      apply List.drop_eq_nil_of_le
      simp only [List.length_append, List.length_cons, List.length_nil, hwidth,
        List.length_drop]
      omega
    rw [hnil]
    simp [progress_line]
  have hbi : to_int bars = (bars : Int) := to_int_of_lt (by omega)
  have hpi : to_int percent = (percent : Int) := to_int_of_lt (by omega)
  have hguard : (0 : Int) ≤ (percent : Int) ∧ (percent : Int) ≤ 100 :=
    ⟨Int.natCast_nonneg _, by exact_mod_cast hpercent⟩
  simp only [render_progress, if_neg (Nat.pos_iff_ne_zero.mp hpos), hw73, hw100, hb, hp, hbi,
    hpi, Int.toNat_ofNat, h1,
    Option.some_bind, h2, h3, hguard, and_self, if_true, h4]

/-! ### Sums over the batch -/

theorem wrap64_lt (n : Nat) : wrap64 n < 2 ^ 64 :=
  Nat.mod_lt n (by norm_num)

theorem foreach_sum_frames (files : List filename_list_node) (fc : Nat × Nat)
    (h1 : fc.1 < 2 ^ 64) (h2 : fc.2 < 2 ^ 64) :
    g_slist_foreach files sum_frames fc =
      (wrap64 (fc.1 + sum_elapsed files), wrap64 (fc.2 + sum_total files)) := by
  induction files generalizing fc with
  | nil =>
    simp only [g_slist_foreach, List.foldl_nil, sum_elapsed, sum_total, List.map_nil,
      List.sum_nil, Nat.add_zero, wrap64_of_lt h1, wrap64_of_lt h2]
  | cons fln rest ih =>
    have hstep : g_slist_foreach (fln :: rest) sum_frames fc =
        g_slist_foreach rest sum_frames (sum_frames fln fc) := rfl
    rw [hstep, ih _ (wrap64_lt _) (wrap64_lt _)]
    simp only [sum_frames, wrap64_add_left, sum_elapsed, sum_total, List.map_cons,
      List.sum_cons, Nat.add_assoc]

/-- One measurement is the pair of the two sums, each reduced modulo `2 ^ 64`. -/
theorem measure_eq (files : List filename_list_node) :
    measure files = (wrap64 (sum_elapsed files), wrap64 (sum_total files)) := by
  have h := foreach_sum_frames files (0, 0) (by norm_num) (by norm_num)
  simpa [measure] using h

theorem sum_map_set (g : filename_list_node → Nat) (files : List filename_list_node)
    (i : Nat) (fln x : filename_list_node) (h : files[i]? = some fln) :
    ((files.set i x).map g).sum + g fln = (files.map g).sum + g x := by
  induction files generalizing i with
  | nil => simp at h
  | cons a rest ih =>
    cases i with
    | zero =>
      simp only [List.getElem?_cons_zero, Option.some.injEq] at h
      subst h
      simp only [List.set_cons_zero, List.map_cons, List.sum_cons]
      omega
    | succ j =>
      simp only [List.getElem?_cons_succ] at h
      have := ih j h
      simp only [List.set_cons_succ, List.map_cons, List.sum_cons]
      omega

theorem correct_length_counters (fd : file_data) :
    (correct_length fd).number_of_elapsed_frames = fd.number_of_elapsed_frames ∧
    (correct_length fd).number_of_frames = fd.number_of_elapsed_frames := by
  unfold correct_length
  by_cases h : fd.number_of_elapsed_frames = fd.number_of_frames
  · simp [h]
  · simp [h]

/-! ### Steps of the scan -/

/-- A rewrite of the node at position `i` leaves every other node alone. -/
theorem update_node_getElem? (files : List filename_list_node) (i : Nat)
    (f : file_data → file_data) (k : Nat) (fln fln' : filename_list_node)
    (h : files[k]? = some fln) (h' : (update_node files i f)[k]? = some fln') :
    fln' = fln ∨ (files[i]? = some fln ∧ fln' = { fln with d := f fln.d }) := by
  unfold update_node at h'
  cases hi : files[i]? with
  | none =>
    rw [hi] at h'
    left
    rw [h] at h'
    exact (Option.some.inj h').symm
  | some x =>
    rw [hi] at h'
    simp only [List.getElem?_set] at h'
    by_cases hik : i = k
    · subst hik
      rw [h] at hi
      cases Option.some.inj hi
      rw [if_pos rfl] at h'
      split at h'
      · right
        exact ⟨rfl, (Option.some.inj h').symm⟩
      · exact absurd h' (by simp)
    · rw [if_neg hik, h] at h'
      left
      exact (Option.some.inj h').symm

/-- The effect of a rewrite of the node at position `i` on a sum over the batch. -/
theorem update_node_sum (files : List filename_list_node) (i : Nat)
    (f : file_data → file_data) (g : file_data → Nat) :
    update_node files i f = files ∨
    ∃ fln, files[i]? = some fln ∧
      ((update_node files i f).map (fun x => g x.d)).sum + g fln.d =
        (files.map (fun x => g x.d)).sum + g (f fln.d) := by
  unfold update_node
  cases hi : files[i]? with
  | none => left; rfl
  | some fln =>
    right
    exact ⟨fln, rfl, sum_map_set (fun x => g x.d) files i fln _ hi⟩

/-- Along a step whose addition does not wrap, no file's elapsed count and
neither the sum of elapsed counts decreases; the sum of totals does not grow
unless the step is a correction that raises its file's total. -/
theorem apply_step_sums (files : List filename_list_node) (step : scan_step)
    (hstep : step_fits files step) :
    (∀ (k : Nat) (fln fln' : filename_list_node), files[k]? = some fln →
      (apply_step files step)[k]? = some fln' →
      fln.d.number_of_elapsed_frames ≤ fln'.d.number_of_elapsed_frames) ∧
    sum_elapsed files ≤ sum_elapsed (apply_step files step) ∧
    (corrects_downward files step → sum_total (apply_step files step) ≤ sum_total files) := by
  cases step with
  | read i nr =>
    simp only [step_fits] at hstep
    have hadd : ∀ fln, files[i]? = some fln →
        (add_elapsed nr fln.d).number_of_elapsed_frames =
          fln.d.number_of_elapsed_frames + nr := fun fln h => by
      simp only [add_elapsed]
      exact wrap64_of_lt (hstep fln h)
    simp only [apply_step]
    refine ⟨?_, ?_, ?_⟩
    · intro k fln fln' h h'
      rcases update_node_getElem? files i _ k fln fln' h h' with e | ⟨hi, e⟩
      · rw [e]
      · rw [e]
        show _ ≤ (add_elapsed nr fln.d).number_of_elapsed_frames
        rw [hadd fln hi]
        omega
    · rcases update_node_sum files i (add_elapsed nr)
        (fun d => d.number_of_elapsed_frames) with e | ⟨fln, hi, e⟩
      · rw [e]
      · simp only [hadd fln hi] at e
        simp only [sum_elapsed]
        omega
    · intro _
      rcases update_node_sum files i (add_elapsed nr)
        (fun d => d.number_of_frames) with e | ⟨fln, _, e⟩
      · rw [e]
      · simp only [add_elapsed] at e
        simp only [sum_total]
        omega
  | finish i =>
    simp only [apply_step]
    refine ⟨?_, ?_, ?_⟩
    · intro k fln fln' h h'
      rcases update_node_getElem? files i _ k fln fln' h h' with e | ⟨_, e⟩
      · rw [e]
      · rw [e]
        show _ ≤ (correct_length fln.d).number_of_elapsed_frames
        rw [(correct_length_counters fln.d).1]
    · rcases update_node_sum files i correct_length
        (fun d => d.number_of_elapsed_frames) with e | ⟨fln, _, e⟩
      · rw [e]
      · simp only [(correct_length_counters fln.d).1] at e
        simp only [sum_elapsed]
        omega
    · intro hdown
      simp only [corrects_downward] at hdown
      rcases update_node_sum files i correct_length
        (fun d => d.number_of_frames) with e | ⟨fln, hi, e⟩
      · rw [e]
      · simp only [(correct_length_counters fln.d).2] at e
        have := hdown fln hi
        simp only [sum_total]
        omega

/-- C4 (as amended): along every step of the scan whose additions stay below
`2 ^ 64` and with a positive measured total before and after, each file's
`number_of_elapsed_frames` does not decrease, the measured sum of elapsed frames
does not decrease, and the progress fraction does not decrease when the step is
a read step or a correction that does not raise its file's total. -/
theorem progress_never_decreases (files : List filename_list_node) (step : scan_step)
    (hstep : step_fits files step)
    (hfitE : sum_elapsed (apply_step files step) < 2 ^ 64)
    (hfitT : sum_total files < 2 ^ 64)
    (hfitT' : sum_total (apply_step files step) < 2 ^ 64)
    (hpos : 0 < (measure files).2)
    (hpos' : 0 < (measure (apply_step files step)).2) :
    (∀ (k : Nat) (fln fln' : filename_list_node), files[k]? = some fln →
      (apply_step files step)[k]? = some fln' →
      fln.d.number_of_elapsed_frames ≤ fln'.d.number_of_elapsed_frames) ∧
    (measure files).1 ≤ (measure (apply_step files step)).1 ∧
    (corrects_downward files step →
      progress_fraction (measure files) ≤
        progress_fraction (measure (apply_step files step))) := by
  obtain ⟨hfile, hsum, htotal⟩ := apply_step_sums files step hstep
  have hE : wrap64 (sum_elapsed files) = sum_elapsed files :=
    wrap64_of_lt (Nat.lt_of_le_of_lt hsum hfitE)
  rw [measure_eq] at hpos hpos' ⊢
  rw [measure_eq]
  simp only [hE, wrap64_of_lt hfitE, wrap64_of_lt hfitT, wrap64_of_lt hfitT'] at hpos hpos' ⊢
  refine ⟨hfile, hsum, fun hdown => ?_⟩
  have ht := htotal hdown
  unfold progress_fraction
  rw [div_le_div_iff₀ (by exact_mod_cast hpos) (by exact_mod_cast hpos')]
  have : sum_elapsed files * sum_total (apply_step files step) ≤
      sum_elapsed (apply_step files step) * sum_total files := Nat.mul_le_mul hsum ht
  exact_mod_cast this

/-- An instance of `progress_never_decreases`: of two files, the first ends its
decoding after 30 of 100 expected frames. -/
theorem progress_never_decreases_witness :
    corrects_downward [node "a" 100 30, node "b" 50 0] (.finish 0) ∧
    0 < (measure [node "a" 100 30, node "b" 50 0]).2 ∧
    progress_fraction (measure [node "a" 100 30, node "b" 50 0]) ≤
      progress_fraction (measure (apply_step [node "a" 100 30, node "b" 50 0] (.finish 0))) :=
  ⟨by simp [corrects_downward, node], by decide,
    (progress_never_decreases [node "a" 100 30, node "b" 50 0] (.finish 0) trivial
      (by decide) (by decide) (by decide) (by decide) (by decide)).2.2
      (by simp [corrects_downward, node])⟩

/-- Counterexample to C4 as first stated: the progress fraction can decrease. A
file announced with 100 frames that delivered 150 has its total raised to 150 by
the correction after its loop, and the fraction of the batch falls from 3/2 to 1. -/
theorem upward_correction_lowers_fraction :
    step_fits [node "a" 100 150] (.finish 0) ∧
    sum_elapsed (apply_step [node "a" 100 150] (.finish 0)) < 2 ^ 64 ∧
    sum_total [node "a" 100 150] < 2 ^ 64 ∧
    sum_total (apply_step [node "a" 100 150] (.finish 0)) < 2 ^ 64 ∧
    0 < (measure [node "a" 100 150]).2 ∧
    0 < (measure (apply_step [node "a" 100 150] (.finish 0))).2 ∧
    progress_fraction (measure (apply_step [node "a" 100 150] (.finish 0))) <
      progress_fraction (measure [node "a" 100 150]) := by
  have h1 : measure [node "a" 100 150] = (150, 100) := by decide
  have h2 : measure (apply_step [node "a" 100 150] (.finish 0)) = (150, 150) := by decide
  refine ⟨trivial, by decide, by decide, by decide, by decide, by decide, ?_⟩
  rw [h1, h2]
  norm_num [progress_fraction]

theorem c_string_append_NUL (line : List Char) (h : NUL ∉ line) :
    c_string (line ++ [NUL]) = line := by
  induction line with
  | nil => simp [c_string]
  | cons c rest ih =>
    have hc : c ≠ NUL := fun e => h (e ▸ List.mem_cons_self _ _)
    have hrest : NUL ∉ rest := fun m => h (List.mem_cons_of_mem _ m)
    have := ih hrest
    simp only [c_string] at this ⊢
    simp only [List.cons_append, List.takeWhile_cons, ne_eq, hc, not_false_eq_true,
      decide_True, if_true]
    rw [this]

theorem progress_line_props (bars percent : Nat) (hbars : bars ≤ 73) (hpercent : percent ≤ 100) :
    (progress_line bars percent).length = 80 ∧ NUL ∉ progress_line bars percent := by
  obtain ⟨hwidth, hnul⟩ := fmt_3d_width percent hpercent
  constructor
  · simp only [progress_line, List.length_cons, List.length_append, List.length_replicate,
      hwidth, List.length_nil]
    omega
  · have h1 : NUL ≠ '[' := by decide
    have h2 : NUL ≠ '#' := by decide
    have h3 : NUL ≠ ' ' := by decide
    have h4 : NUL ≠ ']' := by decide
    have h5 : NUL ≠ '%' := by decide
    simp only [progress_line, List.mem_cons, List.mem_append, List.mem_replicate,
      List.mem_singleton, List.not_mem_nil, not_or, or_false]
    exact ⟨h1, ⟨fun h => h2 h.2, fun h => h3 h.2⟩, ⟨⟨h4, h3⟩, hnul⟩, h5⟩

/-- C9: for a measurement with `0 < fc[1]`, `fc[0] <= fc[1]` and `fc[0] * 100`
below `2 ^ 64`, `bars` is `fc[0] * 73 / fc[1]`, at most 73, `percent` is
`fc[0] * 100 / fc[1]`, at most 100, no store leaves the array of 81 bytes, and
the array then holds the line `[`, `bars` hash signs, `73 - bars` blanks, `] `,
the percentage in width 3 and `%`, which is 80 characters, followed by NUL. -/
theorem progress_line_fixed_width (fc : Nat × Nat) (progress_bar : List Char)
    (hlen : progress_bar.length = 81) (hpos : 0 < fc.2) (hle : fc.1 ≤ fc.2)
    (hfit : fc.1 * 100 < 2 ^ 64) :
    to_int (wrap64 (fc.1 * 73) / fc.2) = ((fc.1 * 73 / fc.2 : Nat) : Int) ∧
    to_int (wrap64 (fc.1 * 100) / fc.2) = ((fc.1 * 100 / fc.2 : Nat) : Int) ∧
    fc.1 * 73 / fc.2 ≤ 73 ∧ fc.1 * 100 / fc.2 ≤ 100 ∧
    render_progress fc progress_bar =
      some ('[' :: (List.replicate (fc.1 * 73 / fc.2) '#' ++
        List.replicate (73 - fc.1 * 73 / fc.2) ' ' ++
        ([']', ' '] ++ fmt_3d ((fc.1 * 100 / fc.2 : Nat) : Int) ++ ['%'])) ++ [NUL]) ∧
    (fmt_3d ((fc.1 * 100 / fc.2 : Nat) : Int)).length = 3 ∧
    (progress_line (fc.1 * 73 / fc.2) (fc.1 * 100 / fc.2)).length = 80 ∧
    (progress_line (fc.1 * 73 / fc.2) (fc.1 * 100 / fc.2) ++ [NUL]).length = 81 ∧
    (∀ b, render_progress fc progress_bar = some b →
      c_string b = progress_line (fc.1 * 73 / fc.2) (fc.1 * 100 / fc.2)) := by
  have hbars : fc.1 * 73 / fc.2 ≤ 73 :=
    Nat.div_le_of_le_mul (Nat.mul_le_mul_right 73 hle)
  have hpercent : fc.1 * 100 / fc.2 ≤ 100 :=
    Nat.div_le_of_le_mul (Nat.mul_le_mul_right 100 hle)
  have hrender := render_progress_eq fc progress_bar hlen hpos hle hfit
  obtain ⟨hl, hnul⟩ := progress_line_props _ _ hbars hpercent
  refine ⟨?_, ?_, hbars, hpercent, hrender, (fmt_3d_width _ hpercent).1, hl, ?_, ?_⟩
  · rw [wrap64_of_lt (by omega)]
    exact to_int_of_lt (by omega)
  · rw [wrap64_of_lt hfit]
    exact to_int_of_lt (by omega)
  · rw [List.length_append, hl]; rfl
  · intro b hb
    rw [hrender] at hb
    rw [← Option.some.inj hb]
    exact c_string_append_NUL _ hnul

/-- An instance of `progress_line_fixed_width`: 50 of 100 frames, drawn into the
zeroed array. -/
theorem progress_line_fixed_width_witness :
    (List.replicate 81 NUL).length = 81 ∧ (50 : Nat) ≤ 100 ∧
    render_progress (50, 100) (List.replicate 81 NUL) =
      some ('[' :: (List.replicate 36 '#' ++ List.replicate 37 ' ' ++
        ([']', ' '] ++ [' ', '5', '0'] ++ ['%'])) ++ [NUL]) :=
  ⟨by decide, by decide,
    (progress_line_fixed_width (50, 100) (List.replicate 81 NUL) (by decide) (by decide)
      (by decide) (by decide)).2.2.2.2.1⟩

/-! ### The reporter loop -/

/-- Where the loop of the reporter can be left: at its head, with the counts it
was entered with being equal, or after a later measurement, which is that of the
batch polled last and has equal counts or a zero total. -/
theorem progress_loop_exit (polls : List (List filename_list_node)) (fc0 : Nat × Nat)
    (n0 : Nat) (progress_bar : List Char) (lines0 : List (List Char))
    (fc : Nat × Nat) (n : Nat) (lines : List (List Char))
    (h : progress_loop polls fc0 n0 progress_bar lines0 = .exited fc n lines) :
    (n = n0 ∧ fc = fc0 ∧ fc0.1 = fc0.2) ∨
    (n0 < n ∧ (polls[n - n0 - 1]?).map measure = some fc ∧ (fc.1 = fc.2 ∨ fc.2 = 0)) := by
  induction polls generalizing fc0 n0 progress_bar lines0 with
  | nil =>
    simp only [progress_loop] at h
    split at h
    · rename_i heq
      left
      cases h
      exact ⟨rfl, rfl, heq⟩
    · cases h
  | cons files rest ih =>
    simp only [progress_loop] at h
    split at h
    · rename_i heq
      left
      cases h
      exact ⟨rfl, rfl, heq⟩
    · split at h
      · rename_i hzero
        right
        cases h
        refine ⟨Nat.lt_succ_self _, ?_, Or.inr hzero⟩
        simp
      · split at h
        · cases h
        · rcases ih _ _ _ _ h with ⟨e1, e2, e3⟩ | ⟨l1, l2, l3⟩
          · right
            subst e1 e2
            refine ⟨Nat.lt_succ_self _, ?_, Or.inl e3⟩
            simp
          · right
            refine ⟨by omega, ?_, l3⟩
            have e : n - n0 - 1 = (n - (n0 + 1) - 1) + 1 := by omega
            rw [e, List.getElem?_cons_succ]
            exact l2

/-- While the batch keeps measuring fewer elapsed frames than total frames, the
reporter does not leave its loop, however often it polls. -/
theorem progress_loop_stuck (files : List filename_list_node)
    (hlt : (measure files).1 < (measure files).2)
    (hfit : (measure files).1 * 100 < 2 ^ 64) (polls : Nat) (fc0 : Nat × Nat) (n0 : Nat)
    (progress_bar : List Char) (lines0 : List (List Char))
    (hfc0 : fc0.1 ≠ fc0.2) (hlen : progress_bar.length = 81) :
    progress_loop (List.replicate polls files) fc0 n0 progress_bar lines0 = .polling := by
  induction polls generalizing fc0 n0 progress_bar lines0 with
  | zero => simp only [List.replicate_zero, progress_loop, if_neg hfc0]
  | succ k ih =>
    have hpos : 0 < (measure files).2 := by omega
    have hrender := render_progress_eq (measure files) progress_bar hlen hpos (by omega) hfit
    have hl := (progress_line_props ((measure files).1 * 73 / (measure files).2)
      ((measure files).1 * 100 / (measure files).2)
      (Nat.div_le_of_le_mul (Nat.mul_le_mul_right 73 (by omega)))
      (Nat.div_le_of_le_mul (Nat.mul_le_mul_right 100 (by omega)))).1
    simp only [List.replicate_succ, progress_loop, if_neg hfc0,
      if_neg (Nat.pos_iff_ne_zero.mp hpos), hrender]
    exact ih _ _ _ _ (by omega) (by rw [List.length_append, hl]; rfl)

/-- C10 (as amended): the reporter leaves its loop only after at least one
measurement, the counts it leaves with are those of the batch polled last, not
the seed, and they are equal or the measured total is 0. -/
theorem reporter_exit (polls : List (List filename_list_node)) (fc : Nat × Nat) (n : Nat)
    (lines : List (List Char))
    (h : print_progress_bar polls = .exited fc n lines) :
    1 ≤ n ∧ (polls[n - 1]?).map measure = some fc ∧ (fc.1 = fc.2 ∨ fc.2 = 0) := by
  rcases progress_loop_exit polls (0, 1) 0 _ [] fc n lines h with ⟨_, _, e⟩ | ⟨l1, l2, l3⟩
  · exact absurd e (by decide)
  · exact ⟨l1, by simpa using l2, l3⟩

set_option maxRecDepth 100000 in
/-- An instance of `reporter_exit`: the second poll finds the only file fully
read. -/
theorem reporter_exit_witness :
    print_progress_bar [[node "a" 100 0], [node "a" 100 100]] =
      .exited (100, 100) 2 [progress_line 0 0, progress_line 73 100] ∧
    1 ≤ 2 ∧ ([[node "a" 100 0], [node "a" 100 100]][2 - 1]?).map measure = some (100, 100) ∧
    ((100 : Nat) = 100 ∨ (100 : Nat) = 0) :=
  ⟨by decide,
    reporter_exit [[node "a" 100 0], [node "a" 100 100]] (100, 100) 2
      [progress_line 0 0, progress_line 73 100] (by decide)⟩

/-- Counterexample to C10 as first stated: the reporter can leave its loop with
unequal counts. A file whose announced total is 0 and of which 50 frames are read
makes the first measurement (50, 0), and the guard on a zero total leaves the
loop. -/
theorem reporter_exit_unequal :
    print_progress_bar [[node "a" 0 50]] = .exited (50, 0) 1 [] ∧ (50 : Nat) ≠ 0 := by
  decide

/-- C3 (the failing input): the prober opens the file and records 100 frames,
the scan job fails to open it. The job returns with the counters 0 and 100, the
sums differ, and the reporter polls this batch for ever. -/
theorem failed_reopen_blocks_reporter :
    scan_all short_decoder unreadable [0] [node "a" 0 0] = some [node "a" 100 0] ∧
    measure [node "a" 100 0] = (0, 100) ∧
    ∀ polls, print_progress_bar (List.replicate polls [node "a" 100 0]) = .polling := by
  refine ⟨by decide, by decide, fun polls => ?_⟩
  exact progress_loop_stuck [node "a" 100 0] (by decide) (by decide) polls (0, 1) 0 _ []
    (by decide) (by decide)

/-! ### The worker pool and the aggregator -/

theorem init_state_and_scan_work_item_fr (w : world) (fln fln' : filename_list_node)
    (h : init_state_and_scan_work_item w fln = some fln') : fln'.fr = fln.fr := by
  unfold init_state_and_scan_work_item at h
  cases hs : scan_file_data (w fln.fr.raw) fln.d with
  | none => rw [hs] at h; cases h
  | some fd =>
    rw [hs] at h
    cases h
    rfl

/-- Jobs of two files can be run in either order. -/
theorem run_job_comm (w : world) (i j : Nat) (z : Option (List filename_list_node)) :
    run_job w (run_job w z i) j = run_job w (run_job w z j) i := by
  by_cases hij : i = j
  · rw [hij]
  cases z with
  | none => rfl
  | some fs =>
    have hji : j ≠ i := Ne.symm hij
    simp only [run_job, Option.some_bind]
    cases hi : fs[i]? with
    | none =>
      cases hj : fs[j]? with
      | none => simp [hi, hj]
      | some y =>
        cases hy : init_state_and_scan_work_item w y with
        | none => simp [hi, hj, hy]
        | some y' => simp [hi, hj, hy, List.getElem?_set_ne hji]
    | some x =>
      cases hx : init_state_and_scan_work_item w x with
      | none =>
        cases hj : fs[j]? with
        | none => simp [hi, hj, hx]
        | some y =>
          cases hy : init_state_and_scan_work_item w y with
          | none => simp [hi, hj, hx, hy]
          | some y' => simp [hi, hj, hx, hy, List.getElem?_set_ne hji]
      | some x' =>
        cases hj : fs[j]? with
        | none => simp [hi, hj, hx, List.getElem?_set_ne hij]
        | some y =>
          cases hy : init_state_and_scan_work_item w y with
          | none => simp [hi, hj, hx, hy, List.getElem?_set_ne hij]
          | some y' =>
            simp only [hi, hj, hx, hy, List.getElem?_set_ne hij, List.getElem?_set_ne hji,
              Option.map_some', Option.some_bind]
            rw [List.set_comm _ _ _ hij]

/-- The file states after the pool has drained do not depend on the order in
which the jobs ran. -/
theorem run_jobs_perm (w : world) (files : List filename_list_node) (order order' : List Nat)
    (hperm : order.Perm order') : run_jobs w files order = run_jobs w files order' :=
  hperm.foldl_eq' (fun x _ y _ z => run_job_comm w x y z) (some files)

/-- After the jobs of the positions in `order`, each at most once, have
returned, the list has its length, the node of every position in `order` is the
result of its own job and every other node is as before. -/
theorem run_jobs_getElem? (w : world) (files : List filename_list_node) (order : List Nat)
    (hnodup : order.Nodup) (final : List filename_list_node)
    (h : run_jobs w files order = some final) :
    final.length = files.length ∧
    ∀ (i : Nat) (fln : filename_list_node), files[i]? = some fln →
      (i ∈ order → init_state_and_scan_work_item w fln = final[i]?) ∧
      (i ∉ order → final[i]? = some fln) := by
  induction order using List.reverseRecOn generalizing final with
  | nil =>
    simp only [run_jobs, List.foldl_nil, Option.some.injEq] at h
    subst h
    exact ⟨rfl, fun i fln hi => ⟨fun hm => absurd hm (List.not_mem_nil _), fun _ => hi⟩⟩
  | append_singleton init j ih =>
    have hsplit : run_jobs w files (init ++ [j]) = run_job w (run_jobs w files init) j := by
      simp [run_jobs, List.foldl_append]
    rw [hsplit] at h
    have hn : init.Nodup ∧ j ∉ init := by
      have := List.nodup_append.mp hnodup
      exact ⟨this.1, fun hm => this.2.2 hm (List.mem_singleton_self j)⟩
    cases hmid : run_jobs w files init with
    | none => rw [hmid] at h; cases h
    | some mid =>
      obtain ⟨hlen, hmidp⟩ := ih hn.1 mid hmid
      rw [hmid] at h
      simp only [run_job, Option.some_bind] at h
      cases hj : mid[j]? with
      | none =>
        rw [hj] at h
        have hfin : final = mid := (Option.some.inj h).symm
        subst hfin
        have hjlen : final.length ≤ j := List.getElem?_eq_none_iff.mp hj
        refine ⟨hlen, fun i fln hi => ?_⟩
        have hilt : i < files.length := (List.getElem?_eq_some_iff.mp hi).1
        have hne : i ≠ j := by omega
        obtain ⟨p1, p2⟩ := hmidp i fln hi
        constructor
        · intro hm
          rcases List.mem_append.mp hm with hm | hm
          · exact p1 hm
          · exact absurd (List.mem_singleton.mp hm) hne
        · intro hm
          exact p2 (fun hm' => hm (List.mem_append_left _ hm'))
      | some x =>
        rw [hj] at h
        simp only at h
        cases hx : init_state_and_scan_work_item w x with
        | none => rw [hx] at h; cases h
        | some x' =>
          rw [hx] at h
          have hfin : final = mid.set j x' := (Option.some.inj h).symm
          subst hfin
          have hjlt : j < mid.length := (List.getElem?_eq_some_iff.mp hj).1
          refine ⟨by rw [List.length_set]; exact hlen, fun i fln hi => ?_⟩
          obtain ⟨p1, p2⟩ := hmidp i fln hi
          by_cases hij : i = j
          · subst hij
            have hxfln : x = fln := by
              have := p2 hn.2
              rw [hj] at this
              exact Option.some.inj this
            subst hxfln
            constructor
            · intro _
              rw [hx, List.getElem?_set_self hjlt]
            · intro hm
              exact absurd (List.mem_append_right _ (List.mem_singleton_self i)) hm
          · rw [List.getElem?_set_ne (Ne.symm hij)]
            constructor
            · intro hm
              rcases List.mem_append.mp hm with hm | hm
              · exact p1 hm
              · exact absurd (List.mem_singleton.mp hm) hij
            · intro hm
              exact p2 (fun hm' => hm (List.mem_append_left _ hm'))

theorem foreach_scan_rows (files : List filename_list_node) (out : List row) :
    g_slist_foreach files print_file_data out = out ++ files.map scan_row := by
  induction files generalizing out with
  | nil => simp [g_slist_foreach]
  | cons fln rest ih =>
    have hstep : g_slist_foreach (fln :: rest) print_file_data out =
        g_slist_foreach rest print_file_data (print_file_data fln out) := rfl
    rw [hstep, ih]
    simp [print_file_data]

theorem init_and_get_number_of_frames_fr (w : world) (fln : filename_list_node) :
    (init_and_get_number_of_frames w fln).fr = fln.fr := by
  unfold init_and_get_number_of_frames
  split <;> rfl

/-- Rows are printed exactly when every job has returned and the reporter has
left its loop, and they are the rows of the final batch in list order. -/
theorem loudness_scan_eq_some (probe scan : world) (order : List Nat)
    (polls : List (List filename_list_node)) (files : List filename_list_node)
    (rows : List row) :
    loudness_scan probe scan order polls files = some rows ↔
      ∃ final, scan_all probe scan order files = some final ∧
        (∃ fc n lines, print_progress_bar (polls ++ [final]) = .exited fc n lines) ∧
        rows = final.map scan_row := by
  unfold loudness_scan
  cases hfinal : scan_all probe scan order files with
  | none => simp
  | some final =>
    have hrows : g_slist_foreach final print_file_data [] = final.map scan_row := by
      rw [foreach_scan_rows]
      rfl
    cases hrep : print_progress_bar (polls ++ [final]) with
    | exited fc n lines =>
      simp only [hrep, hrows, Option.some.injEq]
      constructor
      · intro h
        exact ⟨final, rfl, ⟨fc, n, lines, hrep⟩, h.symm⟩
      · rintro ⟨final', hf, -, hr⟩
        rw [hr, ← hf]
    | polling =>
      simp only [hrep, Option.some.injEq]
      constructor
      · intro h
        cases h
      · rintro ⟨final', hf, ⟨fc, n, lines, hex⟩, -⟩
        rw [← hf, hrep] at hex
        cases hex
    | fault =>
      simp only [hrep, Option.some.injEq]
      constructor
      · intro h
        cases h
      · rintro ⟨final', hf, ⟨fc, n, lines, hex⟩, -⟩
        rw [← hf, hrep] at hex
        cases hex

/-- The rows of `loudness_scan` when every job has run once: one row per input
file, the row at position `i` being made from the name of the file at position
`i` and the counters and loudness that the prober and the job of that file
leave. -/
theorem loudness_scan_rows (probe scan : world) (files : List filename_list_node)
    (order : List Nat) (polls : List (List filename_list_node))
    (hperm : order.Perm (List.range files.length)) (rows : List row)
    (h : loudness_scan probe scan order polls files = some rows) :
    rows.length = files.length ∧
    ∀ (i : Nat) (fln : filename_list_node), files[i]? = some fln →
      ∃ fln', init_state_and_scan_work_item scan (init_and_get_number_of_frames probe fln) =
          some fln' ∧
        fln'.fr = fln.fr ∧ rows[i]? = some (scan_row fln') := by
  obtain ⟨final, hfinal, -, hrows⟩ := (loudness_scan_eq_some _ _ _ _ _ _).mp h
  unfold scan_all at hfinal
  have hnodup : order.Nodup := hperm.nodup_iff.mpr (List.nodup_range _)
  obtain ⟨hlen, hfiles⟩ := run_jobs_getElem? scan _ order hnodup final hfinal
  simp only [g_slist_foreach_node, List.length_map] at hlen
  refine ⟨by rw [hrows, List.length_map, hlen], fun i fln hi => ?_⟩
  have hilt : i < files.length := (List.getElem?_eq_some_iff.mp hi).1
  have hmem : i ∈ order := hperm.mem_iff.mpr (List.mem_range.mpr hilt)
  have hi' : (g_slist_foreach_node files (init_and_get_number_of_frames probe))[i]? =
      some (init_and_get_number_of_frames probe fln) := by
    simp [g_slist_foreach_node, List.getElem?_map, hi]
  have hjob := (hfiles i _ hi').1 hmem
  obtain ⟨x, hfi⟩ : ∃ x, final[i]? = some x :=
    ⟨_, List.getElem?_eq_getElem (show i < final.length by omega)⟩
  rw [hfi] at hjob
  refine ⟨_, hjob, ?_, ?_⟩
  · rw [init_state_and_scan_work_item_fr scan _ _ hjob, init_and_get_number_of_frames_fr]
  · rw [hrows, List.getElem?_map, hfi]
    rfl

/-- C7: whatever the order in which the jobs of the batch run to their return
(any permutation of the positions), the file states after the pool has drained
are the same, and so is what `loudness_scan` prints for given polls of the
reporter. Whenever rows are printed, they are the rows of these final states in
list order: one row per input file, the row at position `i` carrying the display
name of the file at position `i` and the `number_of_frames` and `loudness` that
the prober and the job of that file leave. -/
theorem rows_in_input_order (probe scan : world) (files : List filename_list_node)
    (order : List Nat) (hperm : order.Perm (List.range files.length)) :
    scan_all probe scan order files = scan_all probe scan (List.range files.length) files ∧
    (∀ polls, loudness_scan probe scan order polls files =
      loudness_scan probe scan (List.range files.length) polls files) ∧
    ∀ polls rows, loudness_scan probe scan order polls files = some rows →
      (scan_all probe scan (List.range files.length) files).map (List.map scan_row) =
        some rows ∧
      rows.length = files.length ∧
      ∀ (i : Nat) (fln : filename_list_node), files[i]? = some fln →
        ∃ fln', init_state_and_scan_work_item scan (init_and_get_number_of_frames probe fln) =
            some fln' ∧
          rows[i]? = some { name := fln.fr.display
                            number_of_frames := fln'.d.number_of_frames
                            loudness := fln'.d.loudness } := by
  have hstates : scan_all probe scan order files =
      scan_all probe scan (List.range files.length) files :=
    run_jobs_perm scan _ order _ hperm
  refine ⟨hstates, fun polls => by simp only [loudness_scan, hstates], fun polls rows h => ?_⟩
  obtain ⟨hlen, hrow⟩ := loudness_scan_rows probe scan files order polls hperm rows h
  obtain ⟨final, hfinal, -, hrows⟩ := (loudness_scan_eq_some _ _ _ _ _ _).mp h
  refine ⟨by rw [← hstates, hfinal, hrows]; rfl, hlen, fun i fln hi => ?_⟩
  obtain ⟨fln', hjob, hfr, hr⟩ := hrow i fln hi
  refine ⟨fln', hjob, ?_⟩
  rw [hr, ← hfr]
  rfl

set_option maxRecDepth 100000 in
/-- An instance of `rows_in_input_order` (C7): of three files the first is the
last to be scanned; the reporter polls once before any job has run. -/
theorem rows_in_input_order_witness :
    [1, 2, 0].Perm (List.range [node "a" 0 0, node "b" 0 0, node "c" 0 0].length) ∧
    loudness_scan one_unreadable one_unreadable [1, 2, 0]
        [[node "a" 100 0, node "b" 0 0, node "c" 100 0]]
        [node "a" 0 0, node "b" 0 0, node "c" 0 0] =
      some [{ name := "a", number_of_frames := 30, loudness := -23 },
        { name := "b", number_of_frames := 0, loudness := 0 },
        { name := "c", number_of_frames := 30, loudness := -23 }] ∧
    (scan_all one_unreadable one_unreadable
        (List.range [node "a" 0 0, node "b" 0 0, node "c" 0 0].length)
        [node "a" 0 0, node "b" 0 0, node "c" 0 0]).map (List.map scan_row) =
      some [{ name := "a", number_of_frames := 30, loudness := -23 },
        { name := "b", number_of_frames := 0, loudness := 0 },
        { name := "c", number_of_frames := 30, loudness := -23 }] :=
  ⟨by decide, by decide,
    ((rows_in_input_order one_unreadable one_unreadable
      [node "a" 0 0, node "b" 0 0, node "c" 0 0] [1, 2, 0] (by decide)).2.2
      [[node "a" 100 0, node "b" 0 0, node "c" 100 0]] _ (by decide)).1⟩

/-- C5 (as amended): in scan mode, whenever `loudness_scan` reaches its
aggregator (every job has returned and the reporter is joined), the aggregator
prints one row per input file, in input order and unreadable files included: row
`i` carries the display name of file `i`, and the row of a file that neither the
prober nor the scan job could open carries its display name, `number_of_frames`
0 and `loudness` 0. -/
theorem scan_mode_prints_every_file (probe scan : world) (files : List filename_list_node)
    (order : List Nat) (polls : List (List filename_list_node))
    (hperm : order.Perm (List.range files.length)) (rows : List row)
    (h : loudness_scan probe scan order polls files = some rows) :
    rows.length = files.length ∧
    (∀ (i : Nat) (fln : filename_list_node), files[i]? = some fln →
      ∃ r, rows[i]? = some r ∧ r.name = fln.fr.display) ∧
    (∀ (k : Nat) (fln : filename_list_node), files[k]? = some fln →
      (open_plugin (probe fln.fr.raw)).1 ≠ 0 → (open_plugin (scan fln.fr.raw)).1 ≠ 0 →
      rows[k]? = some { name := fln.fr.display, number_of_frames := 0, loudness := 0 }) := by
  obtain ⟨hlen, hrow⟩ := loudness_scan_rows probe scan files order polls hperm rows h
  refine ⟨hlen, fun i fln hi => ?_, fun k fln hk hprobe hscan => ?_⟩
  · obtain ⟨fln', -, hfr, hr⟩ := hrow i fln hi
    refine ⟨_, hr, ?_⟩
    show fln'.fr.display = _
    rw [hfr]
  · obtain ⟨fln', hjob, -, hr⟩ := hrow k fln hk
    have hp : init_and_get_number_of_frames probe fln = { fln with d := empty } := by
      simp only [init_and_get_number_of_frames, hprobe, ne_eq, not_false_eq_true, if_true]
    have hj : init_state_and_scan_work_item scan { fln with d := empty } =
        some { fln with d := empty } := by
      simp only [init_state_and_scan_work_item, scan_file_data, hscan, ne_eq, not_false_eq_true,
        if_true, Option.map_some']
    rw [hp, hj] at hjob
    rw [hr, ← Option.some.inj hjob]
    rfl

set_option maxRecDepth 100000 in
/-- An instance of `scan_mode_prints_every_file` (C5): two files, the second
unreadable at both visits; the reporter polls once before any job has run. -/
theorem scan_mode_prints_every_file_witness :
    loudness_scan one_unreadable one_unreadable [0, 1] [[node "a" 100 0, node "b" 0 0]]
        [node "a" 0 0, node "b" 0 0] =
      some [{ name := "a", number_of_frames := 30, loudness := -23 },
        { name := "b", number_of_frames := 0, loudness := 0 }] ∧
    (open_plugin (one_unreadable "b")).1 ≠ 0 ∧
    [({ name := "a", number_of_frames := 30, loudness := -23 } : row),
      { name := "b", number_of_frames := 0, loudness := 0 }].length =
      [node "a" 0 0, node "b" 0 0].length ∧
    [({ name := "a", number_of_frames := 30, loudness := -23 } : row),
      { name := "b", number_of_frames := 0, loudness := 0 }][1]? =
      some { name := "b", number_of_frames := 0, loudness := 0 } :=
  ⟨by decide, by decide,
    (scan_mode_prints_every_file one_unreadable one_unreadable
      [node "a" 0 0, node "b" 0 0] [0, 1] [[node "a" 100 0, node "b" 0 0]] (by decide)
      [{ name := "a", number_of_frames := 30, loudness := -23 },
        { name := "b", number_of_frames := 0, loudness := 0 }] (by decide)).1,
    (scan_mode_prints_every_file one_unreadable one_unreadable
      [node "a" 0 0, node "b" 0 0] [0, 1] [[node "a" 100 0, node "b" 0 0]] (by decide)
      [{ name := "a", number_of_frames := 30, loudness := -23 },
        { name := "b", number_of_frames := 0, loudness := 0 }] (by decide)).2.2
      1 (node "b" 0 0) (by decide) (by decide) (by decide)⟩

set_option maxRecDepth 100000 in
/-- Counterexample to C5 as first stated: a batch of two files of which exactly
one is unreadable at both visits gets two rows in scan mode, not one. -/
theorem unreadable_file_has_a_row :
    (open_plugin (one_unreadable "a")).1 = 0 ∧
    (open_plugin (one_unreadable "b")).1 ≠ 0 ∧
    loudness_scan one_unreadable one_unreadable [0, 1] [[node "a" 100 0, node "b" 0 0]]
        [node "a" 0 0, node "b" 0 0] =
      some [{ name := "a", number_of_frames := 30, loudness := -23 },
        { name := "b", number_of_frames := 0, loudness := 0 }] ∧
    [({ name := "a", number_of_frames := 30, loudness := -23 } : row),
      { name := "b", number_of_frames := 0, loudness := 0 }].length ≠ 2 - 1 := by
  decide

/-- In the batch of `failed_reopen_blocks_reporter` no row is printed, however
often the reporter polls before the pool has drained: `loudness_scan` does not
get past the join. -/
theorem failed_reopen_prints_nothing (polls : Nat) :
    loudness_scan short_decoder unreadable [0] (List.replicate polls [node "a" 100 0])
      [node "a" 0 0] = none := by
  have hfinal : scan_all short_decoder unreadable [0] [node "a" 0 0] =
      some [node "a" 100 0] := by decide
  have hpolls : List.replicate polls [node "a" 100 0] ++ [[node "a" 100 0]] =
      List.replicate (polls + 1) [node "a" 100 0] := by
    rw [List.replicate_succ']
  have hstuck : print_progress_bar (List.replicate (polls + 1) [node "a" 100 0]) = .polling :=
    progress_loop_stuck [node "a" 100 0] (by decide) (by decide) (polls + 1) (0, 1) 0 _ []
      (by decide) (by decide)
  simp only [loudness_scan, hfinal, hpolls, hstuck]

end scanner


namespace scanner_tag

theorem foreach_print_file_data (files : List filename_list_node) (out : List row) :
    scanner.g_slist_foreach files print_file_data out =
      out ++ (files.filter (fun fln => fln.d.scanned)).map tag_row := by
  induction files generalizing out with
  | nil => simp [scanner.g_slist_foreach]
  | cons fln rest ih =>
    have hstep : scanner.g_slist_foreach (fln :: rest) print_file_data out =
        scanner.g_slist_foreach rest print_file_data (print_file_data fln out) := rfl
    rw [hstep, ih]
    unfold print_file_data
    cases h : fln.d.scanned
    · simp [List.filter_cons, h]
    · simp [List.filter_cons, h]

/-- The gain `-18 - loudness`, clamped, lies in `[-51, 51]`. -/
theorem clamp_rg_range (x : ℚ) : -51 ≤ clamp_rg x ∧ clamp_rg x ≤ 51 := by
  unfold clamp_rg
  constructor <;> split_ifs <;> linarith

/-- C1: for a scanned file tag-mode `print_file_data` prints one row, and the
track gain in that row is `-18 - loudness` clamped to `[-51, 51]`: the value
itself inside the range, `-51` below it and `51` above it, so every track gain
printed for a list of files lies in the range; a scanned file of loudness `-18`
is printed with gain `0`, one of loudness `100` with `-51` and one of loudness
`-200` with `51`. -/
theorem track_gain_clamped (files : List filename_list_node) (fln : filename_list_node)
    (out : List row) :
    (fln.d.scanned = true →
      ∃ r, print_file_data fln out = out ++ [r] ∧
        r.track_gain = clamp_rg (-18 - fln.d.loudness) ∧
        r.track_gain =
          (if -18 - fln.d.loudness < -51 then -51
           else if 51 < -18 - fln.d.loudness then 51 else -18 - fln.d.loudness) ∧
        -51 ≤ r.track_gain ∧ r.track_gain ≤ 51) ∧
    (print_all files).map row.track_gain =
      ((files.filter (fun fln => fln.d.scanned)).map
        (fun fln => clamp_rg (-18 - fln.d.loudness))) ∧
    (∀ r ∈ print_all files, -51 ≤ r.track_gain ∧ r.track_gain ≤ 51) ∧
    (print_file_data { fln with d := { fln.d with scanned := true, loudness := -18 } } out).map
      row.track_gain = out.map row.track_gain ++ [0] ∧
    (print_file_data { fln with d := { fln.d with scanned := true, loudness := 100 } } out).map
      row.track_gain = out.map row.track_gain ++ [-51] ∧
    (print_file_data { fln with d := { fln.d with scanned := true, loudness := -200 } } out).map
      row.track_gain = out.map row.track_gain ++ [51] ∧
    track_gain fln.d = clamp_rg (-18 - fln.d.loudness) ∧
    clamp_rg (-18 - fln.d.loudness) =
      (if -18 - fln.d.loudness < -51 then -51
       else if 51 < -18 - fln.d.loudness then 51 else -18 - fln.d.loudness) ∧
    (-51 ≤ track_gain fln.d ∧ track_gain fln.d ≤ 51) ∧
    track_gain { fln.d with loudness := -18 } = 0 ∧
    track_gain { fln.d with loudness := 100 } = -51 ∧
    track_gain { fln.d with loudness := -200 } = 51 := by
  have hrows : (print_all files).map row.track_gain =
      ((files.filter (fun fln => fln.d.scanned)).map
        (fun fln => clamp_rg (-18 - fln.d.loudness))) := by
    simp only [print_all, foreach_print_file_data, List.nil_append, List.map_map]
    rfl
  have e1 : track_gain { fln.d with scanned := true, loudness := -18 } = 0 := by
    simp only [track_gain, clamp_rg, REFERENCE_LEVEL]; norm_num
  have e2 : track_gain { fln.d with scanned := true, loudness := 100 } = -51 := by
    simp only [track_gain, clamp_rg, REFERENCE_LEVEL]; norm_num
  have e3 : track_gain { fln.d with scanned := true, loudness := -200 } = 51 := by
    simp only [track_gain, clamp_rg, REFERENCE_LEVEL]; norm_num
  refine ⟨?_, hrows, ?_, ?_, ?_, ?_, rfl, rfl, clamp_rg_range _, ?_, ?_, ?_⟩
  · intro h
    refine ⟨tag_row fln, ?_, rfl, rfl, clamp_rg_range _⟩
    simp only [print_file_data, h, if_true]
  · intro r hr
    have hmem : r.track_gain ∈ (print_all files).map row.track_gain :=
      List.mem_map_of_mem _ hr
    rw [hrows] at hmem
    obtain ⟨x, -, hx⟩ := List.mem_map.mp hmem
    rw [← hx]
    exact clamp_rg_range _
  · simp only [print_file_data, if_true, List.map_append, List.map_cons, List.map_nil, tag_row, e1]
  · simp only [print_file_data, if_true, List.map_append, List.map_cons, List.map_nil, tag_row, e2]
  · simp only [print_file_data, if_true, List.map_append, List.map_cons, List.map_nil, tag_row, e3]
  · simp only [track_gain, clamp_rg, REFERENCE_LEVEL]; norm_num
  · simp only [track_gain, clamp_rg, REFERENCE_LEVEL]; norm_num
  · simp only [track_gain, clamp_rg, REFERENCE_LEVEL]; norm_num

/-- C6: the rows printed in tag mode are the rows of the files whose `scanned`
flag is set, in input order; a file whose flag is clear adds no row, and the
output is the same as if that file were not in the list. -/
theorem tag_rows_only_scanned (files before after : List filename_list_node)
    (fln : filename_list_node) (out : List row) :
    print_all files = (files.filter (fun fln => fln.d.scanned)).map tag_row ∧
    (fln.d.scanned = false → print_file_data fln out = out) ∧
    (fln.d.scanned = true → print_file_data fln out = out ++ [tag_row fln]) ∧
    (fln.d.scanned = false →
      print_all (before ++ fln :: after) = print_all (before ++ after)) := by
  refine ⟨?_, ?_, ?_, ?_⟩
  · simp [print_all, foreach_print_file_data]
  · intro h
    simp [print_file_data, h]
  · intro h
    simp [print_file_data, h]
  · intro h
    simp [print_all, foreach_print_file_data, List.filter_cons, h]

end scanner_tag
